import Mathlib

/-!
# Verification of the talc geometry core

A shallow embedding of the intersection/clipping engine of the `talc`
rasterization toolkit, together with theorems settling the spec claims.

Floating-point values are modelled exactly: an IEEE-754 binary floating-point
number is either a NaN, a signed infinity, or a finite value
`(-1)^neg * m * 2^e`.  All arithmetic is defined by computing the exact
rational result and rounding to nearest, ties to even, which is the IEEE-754
default rounding used by Rust `f32`/`f64` arithmetic.  Rust numeric casts
(`as u32`, `as f32`) and the float comparison operators are modelled
explicitly below.
-/

namespace Talc

/-- A floating-point datum: NaN, a signed infinity, or a finite value
`(-1)^neg * m * 2^e`.  Finite values produced by the operations below are
canonical: either `m = 0 ∧ e = 0` (a signed zero) or `m` lies in
`[2^(prec-1), 2^prec)`, except for subnormals which use the minimum scale. -/
inductive Fp where
  | nan
  | inf (neg : Bool)
  | finite (neg : Bool) (m : Nat) (e : Int)
deriving DecidableEq, Repr

/-- A binary floating-point format: `prec` significand bits and maximum
exponent `emax`.  binary32 is `⟨24, 127⟩`, binary64 is `⟨53, 1023⟩`. -/
structure Fmt where
  prec : Nat
  emax : Int
deriving DecidableEq, Repr

def fmt32 : Fmt := ⟨24, 127⟩

def fmt64 : Fmt := ⟨53, 1023⟩

/-- Smallest usable scale exponent (subnormal scale): `emin - (prec - 1)`. -/
def Fmt.minScale (f : Fmt) : Int := 1 - f.emax - (f.prec - 1)

/-- Largest usable scale exponent: `emax - (prec - 1)`. -/
def Fmt.maxScale (f : Fmt) : Int := f.emax - (f.prec - 1)

/-- `2^e` as a rational, for `e : ℤ`. -/
def pow2 (e : Int) : ℚ :=
  if 0 ≤ e then ((2 ^ e.toNat : ℕ) : ℚ) else 1 / ((2 ^ (-e).toNat : ℕ) : ℚ)

/-- Rational value of a finite float given by sign, significand and scale. -/
def fval (neg : Bool) (m : Nat) (e : Int) : ℚ :=
  (if neg then (-1 : ℚ) else 1) * m * pow2 e

/-- The exact rational value of a float; 0 for NaN and infinities (these cases
are always excluded by hypotheses or handled before `toRat` is consulted). -/
def Fp.toRat : Fp → ℚ
  | .nan => 0
  | .inf _ => 0
  | .finite neg m e => fval neg m e

def Fp.isNan : Fp → Bool
  | .nan => true
  | _ => false

def Fp.isInf : Fp → Bool
  | .inf _ => true
  | _ => false

def Fp.isFinite : Fp → Bool
  | .finite _ _ _ => true
  | _ => false

/-- A finite float with zero significand (a signed zero). -/
def Fp.isZero : Fp → Bool
  | .finite _ 0 _ => true
  | _ => false

/-- The canonical positive zero. -/
def fz : Fp := .finite false 0 0

/-!
Exact rational arithmetic used internally by the float operations.  The
fraction type `Q` is an unnormalized integer pair with a positive
denominator (positivity holds for every `Q` built below); it is chosen over
Mathlib's `ℚ` so that every operation reduces inside the kernel.  The bridge
to `ℚ` is `fval`/`Fp.toRat` above, used in theorem statements only.
-/

/-- An exact fraction `num / den` (denominator positive by construction). -/
structure Q where
  num : Int
  den : Nat
deriving DecidableEq, Repr

def qadd (a b : Q) : Q := ⟨a.num * b.den + b.num * a.den, a.den * b.den⟩

def qneg (a : Q) : Q := ⟨-a.num, a.den⟩

def qsub (a b : Q) : Q := qadd a (qneg b)

def qmul (a b : Q) : Q := ⟨a.num * b.num, a.den * b.den⟩

/-- Exact fraction division; requires `b.num ≠ 0` (all call sites guard). -/
def qdiv (a b : Q) : Q :=
  if 0 ≤ b.num then ⟨a.num * b.den, a.den * b.num.toNat⟩
  else ⟨-(a.num * b.den), a.den * (-b.num).toNat⟩

def qlt (a b : Q) : Bool := decide (a.num * b.den < b.num * a.den)

def qle (a b : Q) : Bool := decide (a.num * b.den ≤ b.num * a.den)

def qeq (a b : Q) : Bool := decide (a.num * b.den = b.num * a.den)

/-- Truncation of a fraction toward zero. -/
def qtrunc (a : Q) : Int :=
  if 0 ≤ a.num then a.num / a.den else -((-a.num) / a.den)

/-- The fraction value of a finite float `(-1)^s * m * 2^e`. -/
def qOfF (s : Bool) (m : Nat) (e : Int) : Q :=
  let n : Int := if s then -(m : Int) else (m : Int)
  if 0 ≤ e then ⟨n * 2 ^ e.toNat, 1⟩ else ⟨n, 2 ^ (-e).toNat⟩

/-- Floor of `log2 n` by structural recursion on a fuel bound (any
`fuel ≥ n` is exact). -/
def flog2 : Nat → Nat → Nat
  | 0, _ => 0
  | fuel + 1, n => if n < 2 then 0 else flog2 fuel (n / 2) + 1

/-- Round the fraction `n / d` (`d > 0`) to the nearest natural number,
ties to even. -/
def rneNat (n d : Nat) : Nat :=
  let q := n / d
  let r := n % d
  if d < 2 * r then q + 1
  else if 2 * r = d ∧ q % 2 = 1 then q + 1
  else q

/-- Round a fraction to a float of format `f`: IEEE-754 round to nearest,
ties to even, overflowing to infinity.  Returns `+0` on input `0`. -/
def roundQ (f : Fmt) (q : Q) : Fp :=
  if q.num = 0 then fz
  else
    let neg := decide (q.num < 0)
    let na := q.num.natAbs
    let e0 : Int :=
      if q.den ≤ na then (flog2 na (na / q.den) : Int)
      else
        let j := flog2 q.den (q.den / na)
        if q.den = na * 2 ^ j then -(j : Int) else -(j : Int) - 1
    let scale := max (e0 - (f.prec - 1)) f.minScale
    let p := if 0 ≤ scale then (na, q.den * 2 ^ scale.toNat)
      else (na * 2 ^ (-scale).toNat, q.den)
    let m := rneNat p.1 p.2
    let c := if 2 ^ f.prec ≤ m then (m / 2, scale + 1) else (m, scale)
    if f.maxScale < c.2 then .inf neg
    else if c.1 = 0 then .finite neg 0 0
    else .finite neg c.1 c.2

/-- Negation (sign-bit flip; Rust unary `-` on floats). -/
def fneg : Fp → Fp
  | .nan => .nan
  | .inf s => .inf (!s)
  | .finite s m e => .finite (!s) m e

/-- IEEE addition in format `f` (round to nearest, ties to even).  An exact
zero sum of nonzero addends is `+0`; a sum of two zeros keeps the IEEE
sign rule `(-0) + (-0) = -0`, otherwise `+0`. -/
def fadd (f : Fmt) : Fp → Fp → Fp
  | .nan, _ => .nan
  | _, .nan => .nan
  | .inf s, .inf t => if s = t then .inf s else .nan
  | .inf s, .finite _ _ _ => .inf s
  | .finite _ _ _, .inf t => .inf t
  | .finite s1 m1 e1, .finite s2 m2 e2 =>
    if m1 = 0 ∧ m2 = 0 then .finite (s1 && s2) 0 0
    else
      let q := qadd (qOfF s1 m1 e1) (qOfF s2 m2 e2)
      if q.num = 0 then fz else roundQ f q

/-- IEEE subtraction: `a - b = a + (-b)`. -/
def fsub (f : Fmt) (a b : Fp) : Fp := fadd f a (fneg b)

/-- IEEE multiplication in format `f`. -/
def fmul (f : Fmt) : Fp → Fp → Fp
  | .nan, _ => .nan
  | _, .nan => .nan
  | .inf s, .inf t => .inf (xor s t)
  | .inf s, .finite t m _ => if m = 0 then .nan else .inf (xor s t)
  | .finite s m _, .inf t => if m = 0 then .nan else .inf (xor s t)
  | .finite s1 m1 e1, .finite s2 m2 e2 =>
    if m1 = 0 ∨ m2 = 0 then .finite (xor s1 s2) 0 0
    else roundQ f (qmul (qOfF s1 m1 e1) (qOfF s2 m2 e2))

/-- IEEE division in format `f`. -/
def fdiv (f : Fmt) : Fp → Fp → Fp
  | .nan, _ => .nan
  | _, .nan => .nan
  | .inf _, .inf _ => .nan
  | .inf s, .finite t _ _ => .inf (xor s t)
  | .finite s _ _, .inf t => .finite (xor s t) 0 0
  | .finite s1 m1 e1, .finite s2 m2 e2 =>
    if m2 = 0 then (if m1 = 0 then .nan else .inf (xor s1 s2))
    else if m1 = 0 then .finite (xor s1 s2) 0 0
    else roundQ f (qdiv (qOfF s1 m1 e1) (qOfF s2 m2 e2))

/-- Rust `%` on floats: the exact remainder `a - trunc(a/b) * b` (always
exactly representable), with the sign of the dividend on a zero result. -/
def frem (f : Fmt) : Fp → Fp → Fp
  | .nan, _ => .nan
  | _, .nan => .nan
  | .inf _, _ => .nan
  | .finite s m e, .inf _ => .finite s m e
  | .finite s1 m1 e1, .finite s2 m2 e2 =>
    if m2 = 0 then .nan
    else
      let a := qOfF s1 m1 e1
      let b := qOfF s2 m2 e2
      let r := qsub a (qmul ⟨qtrunc (qdiv a b), 1⟩ b)
      if r.num = 0 then .finite s1 0 0 else roundQ f r

/-- Rust `<` on floats: false when either operand is NaN. -/
def flt : Fp → Fp → Bool
  | .nan, _ => false
  | _, .nan => false
  | .inf s, .inf t => s && !t
  | .inf s, .finite _ _ _ => s
  | .finite _ _ _, .inf t => !t
  | .finite s1 m1 e1, .finite s2 m2 e2 => qlt (qOfF s1 m1 e1) (qOfF s2 m2 e2)

/-- Rust `<=` on floats: false when either operand is NaN. -/
def fle : Fp → Fp → Bool
  | .nan, _ => false
  | _, .nan => false
  | .inf s, .inf t => s == t || (s && !t)
  | .inf s, .finite _ _ _ => s
  | .finite _ _ _, .inf t => !t
  | .finite s1 m1 e1, .finite s2 m2 e2 => qle (qOfF s1 m1 e1) (qOfF s2 m2 e2)

/-- Rust `==` on floats: false when either operand is NaN; `-0 == +0`. -/
def feq : Fp → Fp → Bool
  | .nan, _ => false
  | _, .nan => false
  | .inf s, .inf t => s == t
  | .inf _, .finite _ _ _ => false
  | .finite _ _ _, .inf _ => false
  | .finite s1 m1 e1, .finite s2 m2 e2 => qeq (qOfF s1 m1 e1) (qOfF s2 m2 e2)

/-- Rust numeric cast `f32 as u32`: truncate toward zero and saturate to
`[0, 2^32 - 1]`; NaN casts to 0. -/
def castU32 : Fp → Nat
  | .nan => 0
  | .inf s => if s then 0 else 2 ^ 32 - 1
  | .finite s m e =>
    (min (max (qtrunc (qOfF s m e)) 0) (2 ^ 32 - 1)).toNat

/-- Rust numeric cast `f64 as f32`: re-round the value to binary32. -/
def fcvt32 : Fp → Fp
  | .nan => .nan
  | .inf s => .inf s
  | .finite s 0 _ => .finite s 0 0
  | .finite s m e => roundQ fmt32 (qOfF s m e)

/-- A float of format `f` holding the integer `n` (exact for all inputs used
here). -/
def fofInt (f : Fmt) (n : Int) : Fp := roundQ f ⟨n, 1⟩

def f32 (n : Int) : Fp := fofInt fmt32 n

def f64 (n : Int) : Fp := fofInt fmt64 n

/-- Result of a Rust computation that may panic: `err` models a panic. -/
inductive PRes (α : Type) where
  | err
  | ok (a : α)
deriving DecidableEq, Repr

/-- `src/geometry/mod.rs`: `Point` (two `f32` fields). -/
structure Pt where
  x : Fp
  y : Fp
deriving DecidableEq, Repr

/-- A Rust `[Point; 2]` segment, modelled as an ordered pair. -/
abbrev Seg := Pt × Pt

/-- Rust derived `PartialEq` on `Point`: fieldwise float `==`. -/
def pointEq (p q : Pt) : Bool := feq p.x q.x && feq p.y q.y

/-- `src/geometry/mod.rs`: `Rect { left, top, right, bottom }` (`f32`). -/
structure Rect where
  left : Fp
  top : Fp
  right : Fp
  bottom : Fp
deriving DecidableEq, Repr

/-- `Rect::contains_x`: `x >= self.left && x < self.right`. -/
def Rect.contains_x (r : Rect) (x : Fp) : Bool :=
  fle r.left x && flt x r.right

/-- `Rect::contains_y`: `y >= self.top && y < self.bottom`. -/
def Rect.contains_y (r : Rect) (y : Fp) : Bool :=
  fle r.top y && flt y r.bottom

/-- `Rect::contains`: `self.contains_x(pt.x) && self.contains_y(pt.y)`. -/
def Rect.contains (r : Rect) (p : Pt) : Bool :=
  r.contains_x p.x && r.contains_y p.y

/-- `src/utilities.rs` `same_sign`:
`((a as u32) ^ (b as u32)) as i32 >= 0`.  The casts are Rust numeric
(saturating) casts; a `u32` reinterpreted `as i32` is nonnegative exactly
when it is below `2^31`. -/
def same_sign (a b : Fp) : Bool :=
  decide (Nat.xor (castU32 a) (castU32 b) < 2 ^ 31)

/-- `src/utilities.rs` `ordered`: `if a <= b {(a, b)} else {(b, a)}`. -/
def ordered (a b : Fp) : Fp × Fp :=
  if fle a b then (a, b) else (b, a)

/-- `src/utilities.rs` `clamped`, which `assert!`s `lower_bound <= upper_bound`
(panic modelled as `PRes.err`). -/
def clamped (value lower_bound upper_bound : Fp) : PRes Fp :=
  if !(fle lower_bound upper_bound) then .err
  else .ok (if flt value lower_bound then lower_bound
    else if flt upper_bound value then upper_bound
    else value)

/-- `src/utilities.rs` `clipped`: clamps the pair into the bounds if either
component lies between them, otherwise `none`.  `assert!`s the bound order. -/
def clipped (values : Fp × Fp) (lower_bound upper_bound : Fp) :
    PRes (Option (Fp × Fp)) :=
  if !(fle lower_bound upper_bound) then .err
  else if (fle lower_bound values.1 && fle values.1 upper_bound) ||
      (fle lower_bound values.2 && fle values.2 upper_bound) then
    match clamped values.1 lower_bound upper_bound,
        clamped values.2 lower_bound upper_bound with
    | .ok a, .ok b => .ok (some (a, b))
    | _, _ => .err
  else .ok none

/-- `src/geometry/line.rs`: the tri-state `Intersection` result. -/
inductive Intersection where
  | At (p : Pt)
  | Colinear
  | None
deriving DecidableEq, Repr

/-- `src/geometry/line.rs` `intersect_segment_with_segment` (f32 arithmetic,
implicit-line cross test adapted from Graphics Gems `xlines.c`). -/
def intersect_segment_with_segment (epa epb : Seg) : Intersection :=
  let a1 := fsub fmt32 epa.2.y epa.1.y
  let b1 := fsub fmt32 epa.1.x epa.2.x
  let c1 := fsub fmt32 (fmul fmt32 epa.2.x epa.1.y) (fmul fmt32 epa.1.x epa.2.y)
  let ab_r0 := fadd fmt32 (fadd fmt32 (fmul fmt32 a1 epb.1.x) (fmul fmt32 b1 epb.1.y)) c1
  let ab_r1 := fadd fmt32 (fadd fmt32 (fmul fmt32 a1 epb.2.x) (fmul fmt32 b1 epb.2.y)) c1
  if feq ab_r0 fz && feq ab_r1 fz then .Colinear
  else if same_sign ab_r0 ab_r1 then .None
  else
    let a2 := fsub fmt32 epb.2.y epb.1.y
    let b2 := fsub fmt32 epb.1.x epb.2.x
    let c2 := fsub fmt32 (fmul fmt32 epb.2.x epb.1.y) (fmul fmt32 epb.1.x epb.2.y)
    let ba_r0 := fadd fmt32 (fadd fmt32 (fmul fmt32 a2 epa.1.x) (fmul fmt32 b2 epa.1.y)) c2
    let ba_r1 := fadd fmt32 (fadd fmt32 (fmul fmt32 a2 epa.2.x) (fmul fmt32 b2 epa.2.y)) c2
    if !(feq ba_r0 fz) && !(feq ba_r1 fz) && same_sign ba_r0 ba_r1 then .None
    else
      let denom := fsub fmt32 (fmul fmt32 a1 b2) (fmul fmt32 a2 b1)
      let x := fdiv fmt32 (fsub fmt32 (fmul fmt32 b1 c2) (fmul fmt32 b2 c1)) denom
      let y := fdiv fmt32 (fsub fmt32 (fmul fmt32 a2 c1) (fmul fmt32 a1 c2)) denom
      .At ⟨x, y⟩

/-- The binary64 value of Rust `std::f64::consts::PI`
(`7074237752028440 * 2^-51`, the double nearest π). -/
def PI64 : Fp := .finite false 7074237752028440 (-51)

/-- `src/geometry/angle.rs` `angle_shift` (instantiated at `f64`):
wraps `val` using `wrap = 2.0 * PI`, branching on `val < base`. -/
def angle_shift (val base : Fp) : Fp :=
  let wrap := fmul fmt64 (f64 2) PI64
  if flt val base then
    fadd fmt64 (fsub fmt64 base (frem fmt64 (fsub fmt64 base val) wrap)) wrap
  else
    fadd fmt64 base (frem fmt64 (fsub fmt64 val base) wrap)

/-- `src/geometry/angle.rs`: the `AngleType` classification. -/
inductive AngleType where
  | Horizontal
  | Vertical
  | Normal (a : Fp)
  | Invalid
deriving DecidableEq, Repr

/-- The binary64 literal `0.5`. -/
def f64half : Fp := .finite false 4503599627370496 (-53)

/-- `src/geometry/angle.rs` `angle_classify`. -/
def angle_classify (angle : Fp) : AngleType :=
  if angle.isInf || angle.isNan then .Invalid
  else if feq angle fz then .Horizontal
  else
    let a := angle_shift angle (f64 0)
    if feq a (fmul fmt64 f64half PI64) then .Vertical
    else .Normal a

/-- `src/geometry/line.rs` `intersect_line_with_segment`.  Panics (`.err`)
on a degenerate segment or an `Invalid` angle.  The `Normal` branch calls
`theta.sin_cos()`; the platform libm implementation is passed in as the
function argument `sincos` (returning the `(sin, cos)` pair). -/
def intersect_line_with_segment (sincos : Fp → Fp × Fp) (pt : Pt) (angle : Fp)
    (segment : Seg) : PRes Intersection :=
  if pointEq segment.1 segment.2 then .err
  else
    let a := fsub fmt32 segment.2.y segment.1.y
    let b := fsub fmt32 segment.1.x segment.2.x
    let c := fsub fmt32 (fmul fmt32 segment.2.x segment.1.y)
      (fmul fmt32 segment.1.x segment.2.y)
    match angle_classify angle with
    | .Invalid => .err
    | .Horizontal =>
      let o := ordered segment.1.y segment.2.y
      if fle o.1 pt.y && fle pt.y o.2 && !(feq a fz) then
        let x := fdiv fmt32 (fsub fmt32 (fmul fmt32 (fneg b) pt.y) c) a
        .ok (.At ⟨x, pt.y⟩)
      else if feq pt.y o.1 && feq pt.y o.2 && feq a fz then .ok .Colinear
      else .ok .None
    | .Vertical =>
      let o := ordered segment.1.x segment.2.x
      if fle o.1 pt.x && fle pt.x o.2 && !(feq b fz) then
        let y := fdiv fmt32 (fsub fmt32 (fmul fmt32 (fneg a) pt.x) c) b
        .ok (.At ⟨pt.x, y⟩)
      else if feq pt.x o.1 && feq pt.x o.2 && feq b fz then .ok .Colinear
      else .ok .None
    | .Normal theta =>
      let sc := sincos theta
      let m := fdiv fmt32 (fcvt32 sc.1) (fcvt32 sc.2)
      let y_0 := fsub fmt32 pt.y (fmul fmt32 m pt.x)
      let r0 := fsub fmt32 (fadd fmt32 (fmul fmt32 m segment.1.x) y_0) segment.1.y
      let r1 := fsub fmt32 (fadd fmt32 (fmul fmt32 m segment.2.x) y_0) segment.2.y
      if feq r0 fz && feq r1 fz then .ok .Colinear
      else if same_sign r0 r1 then .ok .None
      else
        let x := fdiv fmt32 (fsub fmt32 (fmul fmt32 (fneg b) y_0) c)
          (fadd fmt32 a (fmul fmt32 m b))
        let y := fadd fmt32 (fmul fmt32 m x) y_0
        .ok (.At ⟨x, y⟩)

/-- The terse segment constructor `s` local to `extend_segment_to_rect`. -/
def mkSeg (x1 y1 x2 y2 : Fp) : Option Seg :=
  some (⟨x1, y1⟩, ⟨x2, y2⟩)

/-- `src/geometry/line.rs` `extend_segment_to_rect`: extends the segment to
the supporting line and intersects it with the rect boundary, with the
corner-deduplication case table.  Panics (`.err`) on a degenerate segment. -/
def extend_segment_to_rect (segment : Seg) (rect : Rect) :
    PRes (Option Seg) :=
  let ea := segment.1
  let eb := segment.2
  if pointEq ea eb then .err
  else
    let a := fsub fmt32 eb.y ea.y
    let b := fsub fmt32 ea.x eb.x
    let c := fsub fmt32 (fmul fmt32 eb.x ea.y) (fmul fmt32 ea.x eb.y)
    if feq a fz && rect.contains_y eb.y then
      .ok (mkSeg rect.left eb.y rect.right eb.y)
    else if feq b fz && rect.contains_x eb.x then
      .ok (mkSeg eb.x rect.top eb.x rect.bottom)
    else if feq a fz || feq b fz then
      .ok none
    else
      let tx := fdiv fmt32 (fsub fmt32 (fmul fmt32 (fneg b) rect.top) c) a
      let bx := fdiv fmt32 (fsub fmt32 (fmul fmt32 (fneg b) rect.bottom) c) a
      let ly := fdiv fmt32 (fsub fmt32 (fmul fmt32 (fneg a) rect.left) c) b
      let ry := fdiv fmt32 (fsub fmt32 (fmul fmt32 (fneg a) rect.right) c) b
      let txi := rect.contains_x tx
      let bxi := rect.contains_x bx
      let lyi := rect.contains_y ly
      let ryi := rect.contains_y ry
      let lyi := if feq tx ly then false else lyi
      let ryi := if feq tx ry then false else ryi
      let lyi := if feq bx ly then false else lyi
      let ryi := if feq bx ry then false else ryi
      match txi, bxi, lyi, ryi with
      | true, true, _, _ => .ok (mkSeg tx rect.top bx rect.bottom)
      | true, _, true, _ => .ok (mkSeg tx rect.top rect.left ly)
      | true, _, _, true => .ok (mkSeg tx rect.top rect.right ry)
      | _, true, true, _ => .ok (mkSeg bx rect.bottom rect.left ly)
      | _, true, _, true => .ok (mkSeg bx rect.bottom rect.right ry)
      | _, _, true, true => .ok (mkSeg rect.left ly rect.right ry)
      | true, _, _, _ =>
        if feq tx ly then .ok (mkSeg rect.left rect.top rect.left rect.top)
        else .ok (mkSeg rect.right rect.top rect.right rect.top)
      | _, true, _, _ =>
        if feq bx ly then .ok (mkSeg rect.left rect.bottom rect.left rect.bottom)
        else .ok (mkSeg rect.right rect.bottom rect.right rect.bottom)
      | _, _, _, _ => .ok none

/-- One Liang-Barsky constraint step of `clip_segment_to_rect`: narrows the
window `t` by `t_edge` when `t_edge` lies inside it, tightening the lower
bound when `d <= 0.0` (the source tests `-dy <= 0.0`, `-dx <= 0.0`,
`dx <= 0.0`, `dy <= 0.0` respectively) and the upper bound otherwise. -/
def lbStep (t : Fp × Fp) (t_edge d : Fp) : Fp × Fp :=
  if fle t.1 t_edge && fle t_edge t.2 then
    if fle d fz then (t_edge, t.2) else (t.1, t_edge)
  else t

/-- `src/geometry/line.rs` `clip_segment_to_rect` (Liang-Barsky), with the
axis-aligned special cases.  The `clipped` calls can panic (`.err`) via their
internal assertion. -/
def clip_segment_to_rect (segment : Seg) (rect : Rect) : PRes (Option Seg) :=
  let xa := segment.1.x
  let ya := segment.1.y
  let xb := segment.2.x
  let yb := segment.2.y
  let dx := fsub fmt32 xb xa
  let dy := fsub fmt32 yb ya
  if feq dx fz then
    if fle rect.left xa && flt xa rect.right then
      match clipped (ya, yb) rect.top rect.bottom with
      | .err => .err
      | .ok none => .ok none
      | .ok (some tb) => .ok (some (⟨xa, tb.1⟩, ⟨xa, tb.2⟩))
    else .ok none
  else if feq dy fz then
    if fle rect.top ya && flt ya rect.bottom then
      match clipped (xa, xb) rect.left rect.right with
      | .err => .err
      | .ok none => .ok none
      | .ok (some lr) => .ok (some (⟨lr.1, ya⟩, ⟨lr.2, ya⟩))
    else .ok none
  else
    let t : Fp × Fp := (fz, f32 1)
    let t := lbStep t (fdiv fmt32 (fsub fmt32 rect.top ya) dy) (fneg dy)
    let t := lbStep t (fdiv fmt32 (fsub fmt32 rect.left xa) dx) (fneg dx)
    let t := lbStep t (fdiv fmt32 (fsub fmt32 rect.right xa) dx) dx
    let t := lbStep t (fdiv fmt32 (fsub fmt32 rect.bottom ya) dy) dy
    if fle t.1 t.2 then
      .ok (some (⟨fadd fmt32 xa (fmul fmt32 dx t.1), fadd fmt32 ya (fmul fmt32 dy t.1)⟩,
        ⟨fadd fmt32 xa (fmul fmt32 dx t.2), fadd fmt32 ya (fmul fmt32 dy t.2)⟩))
    else .ok none

/-! ## Helper lemmas -/

theorem qOfF_not (s : Bool) (m : Nat) (e : Int) :
    qOfF (!s) m e = qneg (qOfF s m e) := by
  cases s <;> simp [qOfF, qneg] <;> split_ifs <;> simp

theorem qadd_qneg_num (a : Q) : (qadd a (qneg a)).num = 0 := by
  simp [qadd, qneg]

/-- Subtracting a finite float from itself yields `+0` exactly. -/
theorem fsub_self {x : Fp} (h : x.isFinite = true) : fsub fmt32 x x = fz := by
  cases x with
  | nan => simp [Fp.isFinite] at h
  | inf s => simp [Fp.isFinite] at h
  | finite s m e =>
    by_cases hm : m = 0
    · subst hm
      simp [fsub, fneg, fadd, fz]
    · simp [fsub, fneg, fadd, hm, qOfF_not, qadd_qneg_num, fz]

/-- Multiplying a zero by a finite float yields a zero. -/
theorem isZero_fmul_zero_left {z y : Fp} (hz : z.isZero = true)
    (hy : y.isFinite = true) : (fmul fmt32 z y).isZero = true := by
  cases z with
  | nan => simp [Fp.isZero] at hz
  | inf s => simp [Fp.isZero] at hz
  | finite s m e =>
    cases y with
    | nan => simp [Fp.isFinite] at hy
    | inf t => simp [Fp.isFinite] at hy
    | finite t n f =>
      cases m with
      | zero => simp [fmul, Fp.isZero]
      | succ k => simp [Fp.isZero] at hz

/-- Adding two zeros yields a zero. -/
theorem isZero_fadd {a b : Fp} (ha : a.isZero = true) (hb : b.isZero = true) :
    (fadd fmt32 a b).isZero = true := by
  cases a with
  | nan => simp [Fp.isZero] at ha
  | inf s => simp [Fp.isZero] at ha
  | finite s m e =>
    cases b with
    | nan => simp [Fp.isZero] at hb
    | inf t => simp [Fp.isZero] at hb
    | finite t n f =>
      cases m with
      | zero =>
        cases n with
        | zero => simp [fadd, Fp.isZero]
        | succ k => simp [Fp.isZero] at hb
      | succ k => simp [Fp.isZero] at ha

/-- Every zero tests equal to `0.0` under float `==`. -/
theorem feq_fz_of_isZero {a : Fp} (ha : a.isZero = true) : feq a fz = true := by
  cases a with
  | nan => simp [Fp.isZero] at ha
  | inf s => simp [Fp.isZero] at ha
  | finite s m e =>
    cases m with
    | zero => cases s <;> simp [feq, fz, qeq, qOfF] <;> split_ifs <;> simp
    | succ k => simp [Fp.isZero] at ha

theorem fz_isZero : fz.isZero = true := by simp [fz, Fp.isZero]

theorem isFinite_iff {x : Fp} : x.isFinite = true ↔ ∃ s m e, x = .finite s m e := by
  cases x <;> simp [Fp.isFinite]

theorem qOfF_den_pos (s : Bool) (m : Nat) (e : Int) : (0 : ℚ) < (qOfF s m e).den := by
  unfold qOfF
  split_ifs <;> simp

theorem qOfF_val (s : Bool) (m : Nat) (e : Int) :
    ((qOfF s m e).num : ℚ) / ((qOfF s m e).den : ℚ) = fval s m e := by
  unfold qOfF fval pow2
  by_cases h : (0 : Int) ≤ e <;> cases s <;> simp [h] <;> push_cast <;> ring

/-- The model's float `<` agrees with the rational order on finite values. -/
theorem flt_iff_toRat (s1 : Bool) (m1 : Nat) (e1 : Int) (s2 : Bool) (m2 : Nat)
    (e2 : Int) : flt (.finite s1 m1 e1) (.finite s2 m2 e2) = true ↔
      fval s1 m1 e1 < fval s2 m2 e2 := by
  rw [← qOfF_val s1 m1 e1, ← qOfF_val s2 m2 e2,
    div_lt_div_iff (qOfF_den_pos s1 m1 e1) (qOfF_den_pos s2 m2 e2)]
  show qlt (qOfF s1 m1 e1) (qOfF s2 m2 e2) = true ↔ _
  unfold qlt
  rw [decide_eq_true_iff]
  exact_mod_cast Iff.rfl

/-- The model's float `<=` agrees with the rational order on finite values. -/
theorem fle_iff_toRat (s1 : Bool) (m1 : Nat) (e1 : Int) (s2 : Bool) (m2 : Nat)
    (e2 : Int) : fle (.finite s1 m1 e1) (.finite s2 m2 e2) = true ↔
      fval s1 m1 e1 ≤ fval s2 m2 e2 := by
  rw [← qOfF_val s1 m1 e1, ← qOfF_val s2 m2 e2,
    div_le_div_iff (qOfF_den_pos s1 m1 e1) (qOfF_den_pos s2 m2 e2)]
  show qle (qOfF s1 m1 e1) (qOfF s2 m2 e2) = true ↔ _
  unfold qle
  rw [decide_eq_true_iff]
  exact_mod_cast Iff.rfl

theorem angle_classify_invalid_iff (angle : Fp) :
    (angle_classify angle = .Invalid) ↔ (angle.isInf || angle.isNan) = true := by
  unfold angle_classify
  split_ifs with h1 h2 <;> simp [h1] <;> split_ifs <;> simp

/-! ## The claims -/

set_option maxRecDepth 8000

/-- C1: the spec (and the repository's own test
`intersect_segment_with_segment_origin_cross`) expects the crossing segments
`[(-10,-10),(10,10)]` and `[(10,-10),(-10,10)]` to intersect at `At((0,0))`.
The code instead returns `None`: with `ab_r0 = 400` and `ab_r1 = -400`, the
Rust saturating cast makes `same_sign(400, -400)` true (`-400 as u32 = 0`),
so the early `None` exit fires.  This theorem evaluates the model at that
input. -/
theorem C1_intersect_origin_cross_returns_none :
    intersect_segment_with_segment (⟨f32 (-10), f32 (-10)⟩, ⟨f32 10, f32 10⟩)
      (⟨f32 10, f32 (-10)⟩, ⟨f32 (-10), f32 10⟩) = .None := by decide

/-- C2: the claim says `same_sign(a, b)` is true iff both arguments are
strictly positive or both strictly negative.  At `a = -1, b = 1` the signs
differ, yet the code returns `true`: both values saturate to small `u32`
values (`-1 as u32 = 0`, `1 as u32 = 1`) whose xor has a clear top bit. -/
theorem C2_same_sign_of_opposite_signs :
    same_sign (f32 (-1)) (f32 1) = true := by decide

/-- C5: the claim says the intersection kind is symmetric in the argument
order.  For `A = [(0,0),(10,10)]` and `B = [(0,0),(1e9,-1)]` the code returns
`At((-0,0))` for `(A,B)` but `None` for `(B,A)`: the evaluations of `A`
against the line of `B` are `0` and `-1e10`, and the saturating-cast
`same_sign(0, -1e10)` is true (both cast to small `u32` values), so the
swapped call exits with `None`. -/
theorem C5_intersect_not_symmetric :
    intersect_segment_with_segment (⟨f32 0, f32 0⟩, ⟨f32 10, f32 10⟩)
      (⟨f32 0, f32 0⟩, ⟨f32 1000000000, f32 (-1)⟩) =
        .At ⟨.finite true 0 0, .finite false 0 0⟩ ∧
    intersect_segment_with_segment (⟨f32 0, f32 0⟩, ⟨f32 1000000000, f32 (-1)⟩)
      (⟨f32 0, f32 0⟩, ⟨f32 10, f32 10⟩) = .None := by
  constructor
  · decide
  · decide

/-- C8: extending the vertical segment `[(10,10),(10,60)]` to the rect
`{0,0,100,100}` returns `Some([(10,0),(10,100)])`, as the spec states. -/
theorem C8_extend_vertical_segment :
    extend_segment_to_rect (⟨f32 10, f32 10⟩, ⟨f32 10, f32 60⟩)
      ⟨f32 0, f32 0, f32 100, f32 100⟩ =
      .ok (some (⟨f32 10, f32 0⟩, ⟨f32 10, f32 100⟩)) := by decide

/-- C4: the claim says clipping is idempotent.  Clipping the corner-tangent
segment `[(200,0),(0,200)]` to `{0,0,100,100}` yields the degenerate segment
`[(100,100),(100,100)]` (the repository's own
`clip_segment_to_rect_degenerate_corner_tangent` test), but re-clipping that
result yields `None`: the vertical special case tests `xa < rect.right`
half-open, and `100 < 100` fails. -/
theorem C4_reclip_of_corner_tangent_is_none :
    clip_segment_to_rect (⟨f32 200, f32 0⟩, ⟨f32 0, f32 200⟩)
      ⟨f32 0, f32 0, f32 100, f32 100⟩ =
      .ok (some (⟨f32 100, f32 100⟩, ⟨f32 100, f32 100⟩)) ∧
    clip_segment_to_rect (⟨f32 100, f32 100⟩, ⟨f32 100, f32 100⟩)
      ⟨f32 0, f32 0, f32 100, f32 100⟩ = .ok none := by
  constructor
  · decide
  · decide

/-- C3: the claim says a clipped segment lies on the supporting line of the
input segment.  Clipping `[(0,0),(3,1)]` to `{0,0,1,1}` returns the endpoint
`(1, fl(1/3))` with `fl(1/3) = 11184811 * 2^-25`, and the exact cross
product of `(3,1) - (0,0)` with that endpoint is `2^-25 ≠ 0`: the returned
endpoint is not on the supporting line (a one-ulp rounding artifact of the
parametric evaluation). -/
theorem C3_clip_endpoint_off_supporting_line :
    clip_segment_to_rect (⟨f32 0, f32 0⟩, ⟨f32 3, f32 1⟩)
      ⟨f32 0, f32 0, f32 1, f32 1⟩ =
      .ok (some (⟨f32 0, f32 0⟩, ⟨f32 1, .finite false 11184811 (-25)⟩)) ∧
    ((f32 3).toRat - (f32 0).toRat) *
        ((Fp.finite false 11184811 (-25)).toRat - (f32 0).toRat) -
      ((f32 1).toRat - (f32 0).toRat) * ((f32 1).toRat - (f32 0).toRat) ≠ 0 := by
  constructor
  · decide
  · have e3 : f32 3 = Fp.finite false 12582912 (-22) := by decide
    have e1 : f32 1 = Fp.finite false 8388608 (-23) := by decide
    have e0 : f32 0 = Fp.finite false 0 0 := by decide
    rw [e3, e1, e0]
    simp only [Fp.toRat]
    simp [fval, pow2]
    norm_num

/-- C7: the claim (and the doc comment of `angle_shift`) promises a result in
`[base, base + 2π)`.  At `value = 2^55 + 24`, `base = 2^55` the code returns
`2^55 + 8`, which exceeds `base + 2π` (the remainder `24 mod 2π ≈ 5.15` is
absorbed upward by rounding at a magnitude where the ulp is 8).  The second
conjunct shows the result is at least `base + 7 > base + 2π`. -/
theorem C7_angle_shift_exceeds_range :
    angle_shift (fofInt fmt64 (2 ^ 55 + 24)) (fofInt fmt64 (2 ^ 55)) =
      fofInt fmt64 (2 ^ 55 + 8) ∧
    (fofInt fmt64 (2 ^ 55)).toRat + 7 ≤ (fofInt fmt64 (2 ^ 55 + 8)).toRat := by
  have hA : fofInt fmt64 (2 ^ 55 + 24) = Fp.finite false 4503599627370499 3 := by
    decide
  have hB : fofInt fmt64 (2 ^ 55) = Fp.finite false 4503599627370496 3 := by decide
  have hR : fofInt fmt64 (2 ^ 55 + 8) = Fp.finite false 4503599627370497 3 := by
    decide
  constructor
  · have h1 : flt (Fp.finite false 4503599627370499 3)
        (Fp.finite false 4503599627370496 3) = false := by decide
    have h2 : fmul fmt64 (f64 2) PI64 = Fp.finite false 7074237752028440 (-50) := by
      decide
    have h3 : fsub fmt64 (Fp.finite false 4503599627370499 3)
        (Fp.finite false 4503599627370496 3) =
        Fp.finite false 6755399441055744 (-48) := by decide
    have h4 : frem fmt64 (Fp.finite false 6755399441055744 (-48))
        (Fp.finite false 7074237752028440 (-50)) =
        Fp.finite false 5798884508137656 (-50) := by decide
    have h5 : fadd fmt64 (Fp.finite false 4503599627370496 3)
        (Fp.finite false 5798884508137656 (-50)) =
        Fp.finite false 4503599627370497 3 := by decide
    rw [hA, hB, hR]
    unfold angle_shift
    rw [h2, h1]
    simp only [Bool.false_eq_true, if_false]
    rw [h3, h4]
    exact h5
  · rw [hB, hR]
    show fval false 4503599627370496 3 + 7 ≤ fval false 4503599627370497 3
    simp [fval, pow2]
    norm_num

/-- C6: `intersect_line_with_segment` panics exactly when the segment is
degenerate (`segment[0] == segment[1]` under float equality) or the angle
classifies as `Invalid`; and `angle_classify` yields `Invalid` exactly for
NaN or infinite angles.  Every other input produces an `Intersection`
result.  The statement holds for every libm `sin_cos` implementation. -/
theorem C6_line_segment_panic_iff (sincos : Fp → Fp × Fp) (pt : Pt) (angle : Fp)
    (segment : Seg) :
    (intersect_line_with_segment sincos pt angle segment = .err ↔
      (pointEq segment.1 segment.2 = true ∨ angle_classify angle = .Invalid)) ∧
    (angle_classify angle = .Invalid ↔
      (angle.isNan = true ∨ angle.isInf = true)) := by
  constructor
  · by_cases hp : pointEq segment.1 segment.2 = true
    · simp [intersect_line_with_segment, hp]
    · simp only [intersect_line_with_segment, hp, if_false, Bool.false_eq_true]
      cases hc : angle_classify angle <;>
        simp [hc] <;> split_ifs <;> simp
  · rw [angle_classify_invalid_iff]
    simp only [Bool.or_eq_true]
    tauto

/-- C9: `Rect` containment is half-open on both axes: for finite bounds and
coordinates, `contains_x` holds iff `left ≤ x < right` as exact rational
values, and `contains_y` iff `top ≤ y < bottom`; a point exactly on the
right or bottom edge is not contained. -/
theorem C9_rect_containment_half_open (r : Rect) (x y : Fp)
    (hl : r.left.isFinite = true) (hri : r.right.isFinite = true)
    (ht : r.top.isFinite = true) (hb : r.bottom.isFinite = true)
    (hx : x.isFinite = true) (hy : y.isFinite = true) :
    (r.contains_x x = true ↔
      (r.left.toRat ≤ x.toRat ∧ x.toRat < r.right.toRat)) ∧
    (r.contains_y y = true ↔
      (r.top.toRat ≤ y.toRat ∧ y.toRat < r.bottom.toRat)) := by
  obtain ⟨s1, m1, e1, hl⟩ := isFinite_iff.mp hl
  obtain ⟨s2, m2, e2, hri⟩ := isFinite_iff.mp hri
  obtain ⟨s3, m3, e3, ht⟩ := isFinite_iff.mp ht
  obtain ⟨s4, m4, e4, hb⟩ := isFinite_iff.mp hb
  obtain ⟨s5, m5, e5, hx⟩ := isFinite_iff.mp hx
  obtain ⟨s6, m6, e6, hy⟩ := isFinite_iff.mp hy
  constructor
  · rw [Rect.contains_x, hl, hri, hx, Bool.and_eq_true, fle_iff_toRat,
      flt_iff_toRat]
    exact Iff.rfl
  · rw [Rect.contains_y, ht, hb, hy, Bool.and_eq_true, fle_iff_toRat,
      flt_iff_toRat]
    exact Iff.rfl

/-- Witness for C9 at the rect `{0,0,100,100}` with `x = 100` (on the right
edge, hence not contained) and `y = 50`. -/
theorem C9_rect_containment_half_open_witness :
    ((Rect.mk (f32 0) (f32 0) (f32 100) (f32 100)).contains_x (f32 100) = true ↔
      ((f32 0).toRat ≤ (f32 100).toRat ∧ (f32 100).toRat < (f32 100).toRat)) ∧
    ((Rect.mk (f32 0) (f32 0) (f32 100) (f32 100)).contains_y (f32 50) = true ↔
      ((f32 0).toRat ≤ (f32 50).toRat ∧ (f32 50).toRat < (f32 100).toRat)) :=
  C9_rect_containment_half_open (Rect.mk (f32 0) (f32 0) (f32 100) (f32 100))
    (f32 100) (f32 50) (by decide) (by decide) (by decide) (by decide)
    (by decide) (by decide)

/-- C10: two degenerate (point) segments with finite coordinates whose
coordinate products do not overflow are always classified `Colinear`, even
when the two points differ: all three implicit-line coefficients of a point
segment evaluate to zero, so the first colinearity test fires. -/
theorem C10_degenerate_segments_colinear (P Q : Pt)
    (hPx : P.x.isFinite = true) (hPy : P.y.isFinite = true)
    (hQx : Q.x.isFinite = true) (hQy : Q.y.isFinite = true)
    (hP : (fmul fmt32 P.x P.y).isFinite = true)
    (_hQ : (fmul fmt32 Q.x Q.y).isFinite = true) :
    intersect_segment_with_segment (P, P) (Q, Q) = .Colinear := by
  have ha1 : fsub fmt32 P.y P.y = fz := fsub_self hPy
  have hb1 : fsub fmt32 P.x P.x = fz := fsub_self hPx
  have hc1 : fsub fmt32 (fmul fmt32 P.x P.y) (fmul fmt32 P.x P.y) = fz :=
    fsub_self hP
  have h0 : ∀ w : Fp, w.isFinite = true →
      feq (fadd fmt32 (fadd fmt32 (fmul fmt32 fz Q.x) (fmul fmt32 fz w)) fz)
        fz = true := by
    intro w hw
    exact feq_fz_of_isZero (isZero_fadd
      (isZero_fadd (isZero_fmul_zero_left fz_isZero hQx)
        (isZero_fmul_zero_left fz_isZero hw))
      fz_isZero)
  simp only [intersect_segment_with_segment, ha1, hb1, hc1]
  rw [if_pos]
  rw [h0 Q.y hQy]
  rfl

/-- Witness for C10 at `P = (1,2)`, `Q = (3,4)`: two distinct, disjoint point
segments are classified `Colinear`. -/
theorem C10_degenerate_segments_colinear_witness :
    intersect_segment_with_segment (⟨f32 1, f32 2⟩, ⟨f32 1, f32 2⟩)
      (⟨f32 3, f32 4⟩, ⟨f32 3, f32 4⟩) = .Colinear :=
  C10_degenerate_segments_colinear ⟨f32 1, f32 2⟩ ⟨f32 3, f32 4⟩ (by decide)
    (by decide) (by decide) (by decide) (by decide) (by decide)

end Talc
